import Mathlib

/-!
# Verification of the PE/VC deal-explorer core (`app6.py`)

This file gives a shallow embedding of the data pipeline of the dashboard:
loading and expanding the deal table (`load_data`), the date/value filter
(`filtered_df`), the per-buyer presentation statistics (`buyer_df` block),
and the spreadsheet aggregation (`prepare_excel_summary`), together with
theorems settling the specification claims about them.

Modelling conventions:
* pandas timestamps are totally ordered; dates are embedded as `Int`
  (missing dates, `NaT`, as `none`).  The `'%d-%m-%Y'` rendering of
  `strftime` is abstracted as `toString` — no claim depends on the textual
  format, only on which date is rendered.
* deal values are embedded as `ℚ` (missing values, `NaN`, as `none`);
  Python's `round(x, 2)` is embedded as round-half-even at two decimals.
* pandas `NaN`/`NaT` comparison semantics are kept: a comparison mask is
  `false` on a missing entry; `==` selection never matches a missing buyer;
  `drop_duplicates` treats two missing entries in the key as equal;
  `groupby` drops rows whose key is missing; `Series.min`/`max` skip
  missing entries.
-/

namespace PEVC

/-- A source-table row after the column normalisation of `load_data`
(lines 11–13 of `app6.py`): `Date` parsed with `errors='coerce'` (`none`
is `NaT`), `Deal Value (USD mn)` parsed with `errors='coerce'` (`none` is
`NaN`), and the raw comma-separated `Buyer (s)` field (`none` is `NaN`,
turned into `''` by `fillna`). -/
structure RawDeal where
  target : String
  date : Option Int
  value : Option ℚ
  dealType : String
  buyers : Option String
deriving DecidableEq

/-- An expanded row of the dataframe returned by `load_data`: one row per
(deal, buyer) pair after `explode('Buyer List')`.  `buyer` is the
`Buyer List` entry (`none` when `explode` produced `NaN` from an empty
token list), `fdate` the `Formatted Date` column. -/
structure Deal where
  target : String
  date : Option Int
  value : Option ℚ
  dealType : String
  rawBuyers : String
  buyer : Option String
  fdate : Option String
deriving DecidableEq

/-- Rendering of a date, standing in for `strftime('%d-%m-%Y')`; the
textual format is irrelevant to every claim, only which date is rendered
matters. -/
def fmtDate (d : Int) : String := toString d

/-- Round-half-even to the nearest integer, the rounding mode of Python's
builtin `round`.  The fractional part `q - ⌊q⌋ = (q.num - ⌊q⌋*q.den)/q.den`
is compared against `1/2` on the integer representation so that the
definition evaluates inside the kernel (rational arithmetic is
`@[irreducible]`). -/
def roundHalfEven (q : ℚ) : ℤ :=
  let f : ℤ := ⌊q⌋
  let rnum : ℤ := q.num - f * (q.den : ℤ)
  if 2 * rnum < (q.den : ℤ) then f
  else if (q.den : ℤ) < 2 * rnum then f + 1
  else if f % 2 = 0 then f else f + 1

/-- Multiplication by 100 on the reduced representation (equal to `100 * q`,
see `timesHundred_eq`). -/
def timesHundred (q : ℚ) : ℚ := mkRat (100 * q.num) q.den

/-- Python's `round(x, 2)`: round half-even at two decimal places. -/
def round2 (q : ℚ) : ℚ := Rat.divInt (roundHalfEven (timesHundred q)) 100

/-- Sanity check: `timesHundred` is multiplication by 100. -/
theorem timesHundred_eq (q : ℚ) : timesHundred q = 100 * q := by
  rw [timesHundred, Rat.mkRat_eq_div]
  push_cast
  rw [mul_div_assoc, Rat.num_div_den]

/-- Sanity check: `round2` divides the rounded numerator by 100. -/
theorem round2_eq (q : ℚ) :
    round2 q = (roundHalfEven (100 * q) : ℚ) / 100 := by
  rw [round2, Rat.divInt_eq_div, timesHundred_eq]
  norm_num

/-- Python's `x.split(',')` on the character list: split at every comma;
the empty string yields one empty token, as in Python. -/
def splitCommaAux : List Char → List Char → List (List Char)
  | [], acc => [acc.reverse]
  | c :: cs, acc =>
    if c = ',' then acc.reverse :: splitCommaAux cs []
    else splitCommaAux cs (c :: acc)

/-- Python's `x.split(',')`. -/
def splitOnComma (s : String) : List String :=
  (splitCommaAux s.data []).map fun cs => String.mk cs

/-- Drop leading and trailing whitespace from a character list. -/
def trimChars (l : List Char) : List Char :=
  ((l.dropWhile Char.isWhitespace).reverse.dropWhile Char.isWhitespace).reverse

/-- Python's `str.strip()`. -/
def pyStrip (s : String) : String := String.mk (trimChars s.data)

/-- Line 14 of `app6.py`: `[i.strip() for i in x.split(',') if i.strip()]` —
split the raw buyer field on commas, trim whitespace, discard empty
tokens. -/
def splitBuyers (s : String) : List String :=
  ((splitOnComma s).map pyStrip).filter (fun t => t ≠ "")

/-- The buyer-token list of a source row (`fillna('')` then `splitBuyers`). -/
def buyerTokens (r : RawDeal) : List String := splitBuyers (r.buyers.getD "")

/-- The `Buyer (s)` column as carried along after `fillna('').astype(str)`. -/
def rawBuyersStr (r : RawDeal) : String := r.buyers.getD ""

/-- `df.explode('Buyer List')` on one row, followed by the second
`.str.strip()` (line 16) and the `Formatted Date` column (line 17).
pandas `explode` turns an empty list into a single row whose exploded
entry is `NaN`; a non-empty token list yields one row per token, all other
fields copied unchanged. -/
def expandRow (r : RawDeal) : List Deal :=
  match buyerTokens r with
  | [] => [⟨r.target, r.date, r.value, r.dealType, rawBuyersStr r, none, r.date.map fmtDate⟩]
  | t :: ts => (t :: ts).map fun tok =>
      ⟨r.target, r.date, r.value, r.dealType, rawBuyersStr r, some (pyStrip tok), r.date.map fmtDate⟩

/-- `load_data` (lines 10–18): normalise, split the buyer field and explode
into one row per (deal, buyer) pair, keeping row order. -/
def loadData (rows : List RawDeal) : List Deal := rows.flatMap expandRow

/-- The sidebar filter criteria: `from_date`, `to_date`, and the minimum
deal value. -/
structure Criteria where
  fromDate : Int
  toDate : Int
  minValue : ℚ
deriving DecidableEq

/-- The boolean mask `df['Date'] >= pd.to_datetime(from_date)` on one row;
a missing date compares `False`. -/
def fromMask (c : Criteria) (d : Deal) : Bool :=
  match d.date with
  | some x => decide (c.fromDate ≤ x)
  | none => false

/-- The boolean mask `df['Date'] <= pd.to_datetime(to_date)` on one row. -/
def toMask (c : Criteria) (d : Deal) : Bool :=
  match d.date with
  | some x => decide (x ≤ c.toDate)
  | none => false

/-- The boolean mask `df['Deal Value (USD mn)'] >= deal_value` on one row;
a missing value compares `False`. -/
def valueMask (c : Criteria) (d : Deal) : Bool :=
  match d.value with
  | some v => decide (c.minValue ≤ v)
  | none => false

/-- The conjunction of the three masks (lines 38–42). -/
def matchesFilter (c : Criteria) (d : Deal) : Bool :=
  fromMask c d && toMask c d && valueMask c d

/-- `filtered_df = df[mask]`: the Filter Engine. -/
def filterRecords (c : Criteria) (l : List Deal) : List Deal :=
  l.filter (matchesFilter c)

/-- `drop_duplicates(subset=..., keep='first')` with respect to a key
function, threading the set of keys already seen.  pandas treats two
missing key entries as equal, which the `Option`-valued key components
reproduce. -/
def dropDupByAux {κ : Type} [DecidableEq κ] (key : Deal → κ) :
    List κ → List Deal → List Deal
  | _, [] => []
  | seen, d :: ds =>
    if key d ∈ seen then dropDupByAux key seen ds
    else d :: dropDupByAux key (key d :: seen) ds

/-- The deduplication key of line 58:
`['Buyer List', 'Target Company Name', 'Date', 'Deal Value (USD mn)']`. -/
def dedupKey (d : Deal) : Option String × String × Option Int × Option ℚ :=
  (d.buyer, d.target, d.date, d.value)

/-- Line 58: `data.drop_duplicates(subset=['Buyer List', 'Target Company
Name', 'Date', 'Deal Value (USD mn)'])`. -/
def dropDuplicates (l : List Deal) : List Deal := dropDupByAux dedupKey [] l

/-- The deduplication key of the presentation layer (line 162):
`['Target Company Name', 'Date', 'Deal Value (USD mn)']`. -/
def viewKey (d : Deal) : String × Option Int × Option ℚ :=
  (d.target, d.date, d.value)

/-- Line 162: `drop_duplicates(subset=['Target Company Name', 'Date',
'Deal Value (USD mn)'])` in the per-buyer display. -/
def viewDedup (l : List Deal) : List Deal := dropDupByAux viewKey [] l

/-- `data[data['Buyer List'] == buyer]`: pandas `==` is `False` whenever
either side is missing, so a `NaN` buyer never matches. -/
def selectBuyer (l : List Deal) (b : Option String) : List Deal :=
  l.filter fun d =>
    match d.buyer, b with
    | some x, some y => decide (x = y)
    | _, _ => false

/-- The group of rows for buyer `b` under `groupby('Buyer List')` (line 49);
`groupby` drops rows with a missing key. -/
def rowsFor (l : List Deal) (b : String) : List Deal :=
  l.filter fun d => decide (d.buyer = some b)

/-- The `Date` entries of a row list that are present (`Series.min`/`max`
skip `NaT`). -/
def presentDates (l : List Deal) : List Int := l.filterMap (·.date)

/-- The `Deal Value (USD mn)` entries of a row list that are present. -/
def presentValues (l : List Deal) : List ℚ := l.filterMap (·.value)

/-- pandas `Series.min` over the present entries: `none` on an empty list. -/
def pdMin {α : Type} [LinearOrder α] : List α → Option α
  | [] => none
  | a :: l =>
    match pdMin l with
    | none => some a
    | some b => some (min a b)

/-- pandas `Series.max` over the present entries. -/
def pdMax {α : Type} [LinearOrder α] : List α → Option α
  | [] => none
  | a :: l =>
    match pdMax l with
    | none => some a
    | some b => some (max a b)

/-- One row of the `Buyer Summary` sheet. -/
structure SummaryRow where
  buyer : String
  numDeals : ℕ
  firstDealDate : Option String
  lastDealDate : Option String
  minDealValue : Option ℚ
  maxDealValue : Option ℚ
deriving DecidableEq

/-- The `Buyer Summary` aggregation of lines 49–55, for the group of buyer
`b`: count of `Target Company Name`, `min`/`max` of `Date` rendered, and
`round(·, 2)` of `min`/`max` of `Deal Value (USD mn)`.  Note this runs on
`data` *before* the `drop_duplicates` of line 58. -/
def summaryRow (data : List Deal) (b : String) : SummaryRow :=
  { buyer := b
    numDeals := (rowsFor data b).length
    firstDealDate := (pdMin (presentDates (rowsFor data b))).map fmtDate
    lastDealDate := (pdMax (presentDates (rowsFor data b))).map fmtDate
    minDealValue := (pdMin (presentValues (rowsFor data b))).map round2
    maxDealValue := (pdMax (presentValues (rowsFor data b))).map round2 }

/-- The distinct buyers that actually appear in a row list (missing buyers
excluded). -/
def presentBuyers (data : List Deal) : List String :=
  (data.filterMap (·.buyer)).dedup

/-- The sort key of `sort_values('Date')`: missing dates (`NaT`) sort
last. -/
def sortKey (d : Deal) : WithTop ℤ :=
  match d.date with
  | none => ⊤
  | some x => (x : WithTop ℤ)

/-- Date-ascending comparison between rows. -/
def dealLE (a b : Deal) : Prop := sortKey a ≤ sortKey b

instance : DecidableRel dealLE := fun a b =>
  inferInstanceAs (Decidable (sortKey a ≤ sortKey b))

instance : IsTotal Deal dealLE := ⟨fun a b => le_total (sortKey a) (sortKey b)⟩

instance : IsTrans Deal dealLE := ⟨fun _ _ _ h h' => le_trans h h'⟩

/-- `sort_values('Date')`. -/
def sortByDate (l : List Deal) : List Deal := List.insertionSort dealLE l

/-- A spreadsheet cell value of the `Buyer Deal Details` sheet. -/
inductive Cell where
  | str (v : String)
  | num (v : ℚ)
deriving DecidableEq

/-- The three cells a row contributes to its buyer's deal sequence
(lines 66–70): `Formatted Date`, `Target Company Name`,
`round(Deal Value, 2)`; a missing entry renders as an empty cell. -/
def tripleOf (d : Deal) : List (Option Cell) :=
  [d.fdate.map Cell.str, some (Cell.str d.target), d.value.map fun v => Cell.num (round2 v)]

/-- `buyer_df = data[data['Buyer List'] == buyer].sort_values('Date')`
(line 63), on the deduplicated data. -/
def sortedBuyerRows (data : List Deal) (b : Option String) : List Deal :=
  sortByDate (selectBuyer (dropDuplicates data) b)

/-- The flattened `deal_info` list for one buyer (lines 64–71). -/
def dealInfo (data : List Deal) (b : Option String) : List (Option Cell) :=
  (sortedBuyerRows data b).flatMap tripleOf

/-- `Series.unique`: first occurrences in order, missing values included. -/
def uniqAux {α : Type} [DecidableEq α] : List α → List α → List α
  | _, [] => []
  | seen, a :: l => if a ∈ seen then uniqAux seen l else a :: uniqAux (a :: seen) l

/-- `data['Buyer List'].unique()` over the deduplicated data (line 62). -/
def uniqueBuyers (data : List Deal) : List (Option String) :=
  uniqAux [] ((dropDuplicates data).map (·.buyer))

/-- The `deal_dict` of lines 61–71: each unique buyer mapped to its
flattened deal sequence. -/
def dealDict (data : List Deal) : List (Option String × List (Option Cell)) :=
  (uniqueBuyers data).map fun b => (b, dealInfo data b)

/-- The longest value list in the dict: `pd.DataFrame.from_dict(...,
orient='index')` pads every row to this length with `NaN`. -/
def maxRowLen (dict : List (Option String × List (Option Cell))) : ℕ :=
  (dict.map fun p => p.2.length).foldr max 0

/-- Pad a row with trailing empty cells up to width `n`. -/
def padTo (n : ℕ) (l : List (Option Cell)) : List (Option Cell) :=
  l ++ List.replicate (n - l.length) none

/-- The `Buyer Deal Details` data rows (`deals_df` of lines 74–76): buyer
name column plus the padded deal cells. -/
def detailsTable (data : List Deal) : List (Option String × List (Option Cell)) :=
  (dealDict data).map fun p => (p.1, padTo (maxRowLen (dealDict data)) p.2)

/-- The column count of `deals_df`: the `Buyer Name` column plus one column
per padded cell. -/
def numDetailColumns (data : List Deal) : ℕ := 1 + maxRowLen (dealDict data)

/-- The dynamically generated headers of lines 79–86:
`num_deals = (shape[1] - 1) // 3` triples of headers after `Buyer Name`. -/
def detailHeaders (data : List Deal) : List String :=
  "Buyer Name" :: (List.range (maxRowLen (dealDict data) / 3)).flatMap
    (fun i => ["Date " ++ toString (i+1), "Deal " ++ toString (i+1),
               "Deal Value " ++ toString (i+1) ++ " (in Mn USD)"])

/-- The per-buyer deal count after deduplication — the number of triples
the buyer's details row carries. -/
def buyerDealCount (data : List Deal) (b : String) : ℕ :=
  (selectBuyer (dropDuplicates data) (some b)).length

/-- The maximum per-buyer (deduplicated) deal count over the buyers of the
set. -/
def maxDealCount (data : List Deal) : ℕ :=
  ((presentBuyers data).map (buyerDealCount data)).foldr max 0

/-- The per-buyer view of the presentation layer (lines 162–163): select
the buyer, deduplicate on (target, date, value), sort by date. -/
def buyerView (data : List Deal) (b : String) : List Deal :=
  sortByDate (viewDedup (selectBuyer data (some b)))

/-- `Total Deals` of the narrative summary (line 170). -/
def presTotalDeals (data : List Deal) (b : String) : ℕ :=
  (buyerView data b).length

/-- `First Investment` of the narrative summary (line 171). -/
def presFirstDate (data : List Deal) (b : String) : Option String :=
  (pdMin (presentDates (buyerView data b))).map fmtDate

/-- `Most Recent Investment` of the narrative summary (line 172). -/
def presLastDate (data : List Deal) (b : String) : Option String :=
  (pdMax (presentDates (buyerView data b))).map fmtDate

/-- `Min Deal Value` of the narrative summary (line 173); the `:,.2f`
display rounding is the same two-decimal half-even rounding as
`round(·, 2)`. -/
def presMinValue (data : List Deal) (b : String) : Option ℚ :=
  (pdMin (presentValues (buyerView data b))).map round2

/-- `Max Deal Value` of the narrative summary (line 174). -/
def presMaxValue (data : List Deal) (b : String) : Option ℚ :=
  (pdMax (presentValues (buyerView data b))).map round2

/-- The fixed light palette of line 112. -/
def lightColors : List String := ["#f2f2f2", "#e6f7ff", "#f9f9f9", "#eafbea"]

/-- The palette index the code computes at loop variable `i` (line 114):
`(i - 1 // 3) % len(light_colors)` — Python's `//` binds tighter than `-`,
so this is `(i - 0) % 4`. -/
def codeColorIndex (i : ℕ) : ℕ := (i - 1 / 3) % lightColors.length

/-- The loop variable `i` of `range(1, shape[1]-1, 3)` at the 0-based
triple-group index `j`. -/
def groupLoopVar (j : ℕ) : ℕ := 1 + 3 * j

/-- The fill colour the code applies to triple group `j`. -/
def appliedGroupColor (j : ℕ) : Option String :=
  lightColors.get? (codeColorIndex (groupLoopVar j))

/-- The fill colour the specification intends for triple group `j`: the
`(j mod 4)`-th palette entry. -/
def intendedGroupColor (j : ℕ) : Option String :=
  lightColors.get? (j % lightColors.length)

/-! ## Helper lemmas about `pdMin` and `pdMax` -/

theorem pdMin_eq_none_iff {α : Type} [LinearOrder α] {l : List α} :
    pdMin l = none ↔ l = [] := by
  cases l with
  | nil => simp [pdMin]
  | cons a l =>
    simp only [pdMin]
    cases pdMin l <;> simp

theorem pdMin_mem {α : Type} [LinearOrder α] :
    ∀ {l : List α} {a : α}, pdMin l = some a → a ∈ l := by
  intro l
  induction l with
  | nil => intro a h; simp [pdMin] at h
  | cons x l ih =>
    intro a h
    simp only [pdMin] at h
    cases hl : pdMin l with
    | none => rw [hl] at h; simp at h; simp [h]
    | some b =>
      rw [hl] at h
      simp only [Option.some.injEq] at h
      rcases le_total x b with hxb | hbx
      · rw [min_eq_left hxb] at h; simp [h]
      · rw [min_eq_right hbx] at h
        exact List.mem_cons_of_mem _ (h ▸ ih hl)

theorem pdMin_le {α : Type} [LinearOrder α] :
    ∀ {l : List α} {a : α}, pdMin l = some a → ∀ b ∈ l, a ≤ b := by
  intro l
  induction l with
  | nil => intro a h; simp [pdMin] at h
  | cons x l ih =>
    intro a h b hb
    simp only [pdMin] at h
    cases hl : pdMin l with
    | none =>
      rw [hl] at h
      simp only [Option.some.injEq] at h
      rcases List.mem_cons.mp hb with rfl | hb'
      · exact le_of_eq h.symm
      · exact absurd (pdMin_eq_none_iff.mp hl ▸ hb' : b ∈ ([] : List α)) (by simp)
    | some c =>
      rw [hl] at h
      simp only [Option.some.injEq] at h
      rcases List.mem_cons.mp hb with rfl | hb'
      · exact h ▸ min_le_left _ c
      · exact le_trans (h ▸ min_le_right _ c) (ih hl b hb')

theorem pdMin_eq_some_iff {α : Type} [LinearOrder α] {l : List α} {a : α} :
    pdMin l = some a ↔ a ∈ l ∧ ∀ b ∈ l, a ≤ b := by
  constructor
  · intro h; exact ⟨pdMin_mem h, pdMin_le h⟩
  · rintro ⟨ha, hb⟩
    cases hm : pdMin l with
    | none => exact absurd (pdMin_eq_none_iff.mp hm ▸ ha : a ∈ ([] : List α)) (by simp)
    | some c =>
      have h1 : c ≤ a := pdMin_le hm a ha
      have h2 : a ≤ c := hb c (pdMin_mem hm)
      rw [le_antisymm h1 h2]

theorem pdMin_congr {α : Type} [LinearOrder α] {l l' : List α}
    (h : ∀ x, x ∈ l ↔ x ∈ l') : pdMin l = pdMin l' := by
  cases hm : pdMin l with
  | none =>
    rcases hl : pdMin l' with _ | c
    · rfl
    · have := (h c).mpr (pdMin_mem hl)
      rw [pdMin_eq_none_iff.mp hm] at this
      simp at this
  | some c =>
    rcases pdMin_eq_some_iff.mp hm with ⟨hc, hle⟩
    exact (pdMin_eq_some_iff.mpr ⟨(h c).mp hc, fun b hb => hle b ((h b).mpr hb)⟩).symm

theorem pdMax_eq_none_iff {α : Type} [LinearOrder α] {l : List α} :
    pdMax l = none ↔ l = [] := by
  cases l with
  | nil => simp [pdMax]
  | cons a l =>
    simp only [pdMax]
    cases pdMax l <;> simp

theorem pdMax_mem {α : Type} [LinearOrder α] :
    ∀ {l : List α} {a : α}, pdMax l = some a → a ∈ l := by
  intro l
  induction l with
  | nil => intro a h; simp [pdMax] at h
  | cons x l ih =>
    intro a h
    simp only [pdMax] at h
    cases hl : pdMax l with
    | none => rw [hl] at h; simp at h; simp [h]
    | some b =>
      rw [hl] at h
      simp only [Option.some.injEq] at h
      rcases le_total x b with hxb | hbx
      · rw [max_eq_right hxb] at h
        exact List.mem_cons_of_mem _ (h ▸ ih hl)
      · rw [max_eq_left hbx] at h; simp [h]

theorem pdMax_ge {α : Type} [LinearOrder α] :
    ∀ {l : List α} {a : α}, pdMax l = some a → ∀ b ∈ l, b ≤ a := by
  intro l
  induction l with
  | nil => intro a h; simp [pdMax] at h
  | cons x l ih =>
    intro a h b hb
    simp only [pdMax] at h
    cases hl : pdMax l with
    | none =>
      rw [hl] at h
      simp only [Option.some.injEq] at h
      rcases List.mem_cons.mp hb with rfl | hb'
      · exact le_of_eq h
      · exact absurd (pdMax_eq_none_iff.mp hl ▸ hb' : b ∈ ([] : List α)) (by simp)
    | some c =>
      rw [hl] at h
      simp only [Option.some.injEq] at h
      rcases List.mem_cons.mp hb with rfl | hb'
      · exact h ▸ le_max_left _ c
      · exact le_trans (ih hl b hb') (h ▸ le_max_right _ c)

theorem pdMax_eq_some_iff {α : Type} [LinearOrder α] {l : List α} {a : α} :
    pdMax l = some a ↔ a ∈ l ∧ ∀ b ∈ l, b ≤ a := by
  constructor
  · intro h; exact ⟨pdMax_mem h, pdMax_ge h⟩
  · rintro ⟨ha, hb⟩
    cases hm : pdMax l with
    | none => exact absurd (pdMax_eq_none_iff.mp hm ▸ ha : a ∈ ([] : List α)) (by simp)
    | some c =>
      have h1 : a ≤ c := pdMax_ge hm a ha
      have h2 : c ≤ a := hb c (pdMax_mem hm)
      rw [le_antisymm h2 h1]

theorem pdMax_congr {α : Type} [LinearOrder α] {l l' : List α}
    (h : ∀ x, x ∈ l ↔ x ∈ l') : pdMax l = pdMax l' := by
  cases hm : pdMax l with
  | none =>
    rcases hl : pdMax l' with _ | c
    · rfl
    · have := (h c).mpr (pdMax_mem hl)
      rw [pdMax_eq_none_iff.mp hm] at this
      simp at this
  | some c =>
    rcases pdMax_eq_some_iff.mp hm with ⟨hc, hle⟩
    exact (pdMax_eq_some_iff.mpr ⟨(h c).mp hc, fun b hb => hle b ((h b).mpr hb)⟩).symm

/-! ## Helper lemmas about deduplication -/

theorem dropDupByAux_sublist {κ : Type} [DecidableEq κ] (key : Deal → κ) :
    ∀ (l : List Deal) (seen : List κ), List.Sublist (dropDupByAux key seen l) l := by
  intro l
  induction l with
  | nil => intro seen; simp [dropDupByAux]
  | cons d ds ih =>
    intro seen
    simp only [dropDupByAux]
    by_cases h : key d ∈ seen
    · simp only [if_pos h]
      exact (ih seen).cons d
    · simp only [if_neg h]
      exact (ih (key d :: seen)).cons₂ d

theorem mem_of_mem_dropDupByAux {κ : Type} [DecidableEq κ] {key : Deal → κ}
    {l : List Deal} {seen : List κ} {d : Deal}
    (h : d ∈ dropDupByAux key seen l) : d ∈ l :=
  (dropDupByAux_sublist key l seen).mem h

theorem dropDupByAux_key_rep {κ : Type} [DecidableEq κ] (key : Deal → κ) :
    ∀ (l : List Deal) (seen : List κ) (d : Deal), d ∈ l → key d ∉ seen →
      ∃ d', d' ∈ dropDupByAux key seen l ∧ key d' = key d := by
  intro l
  induction l with
  | nil => intro seen d h; simp at h
  | cons e es ih =>
    intro seen d hd hseen
    simp only [dropDupByAux]
    by_cases he : key e ∈ seen
    · simp only [if_pos he]
      rcases List.mem_cons.mp hd with rfl | hd'
      · exact absurd he hseen
      · exact ih seen d hd' hseen
    · simp only [if_neg he]
      rcases List.mem_cons.mp hd with rfl | hd'
      · exact ⟨d, List.mem_cons_self _ _, rfl⟩
      · by_cases hk : key d = key e
        · exact ⟨e, List.mem_cons_self e _, hk.symm⟩
        · have : key d ∉ key e :: seen := by
            simp only [List.mem_cons]
            exact fun h => h.elim hk hseen
          rcases ih (key e :: seen) d hd' this with ⟨d', hd'', hkey⟩
          exact ⟨d', List.mem_cons_of_mem e hd'', hkey⟩

theorem key_not_seen_of_mem_dropDupByAux {κ : Type} [DecidableEq κ] {key : Deal → κ} :
    ∀ {l : List Deal} {seen : List κ} {d : Deal},
      d ∈ dropDupByAux key seen l → key d ∉ seen := by
  intro l
  induction l with
  | nil => intro seen d h; simp [dropDupByAux] at h
  | cons e es ih =>
    intro seen d h
    simp only [dropDupByAux] at h
    by_cases he : key e ∈ seen
    · rw [if_pos he] at h
      exact ih h
    · rw [if_neg he] at h
      rcases List.mem_cons.mp h with rfl | h'
      · exact he
      · have := ih h'
        simp only [List.mem_cons] at this
        exact fun hk => this (Or.inr hk)

theorem dropDupByAux_keys_pairwise {κ : Type} [DecidableEq κ] (key : Deal → κ) :
    ∀ (l : List Deal) (seen : List κ),
      (dropDupByAux key seen l).Pairwise (fun a b => key a ≠ key b) := by
  intro l
  induction l with
  | nil => intro seen; simp [dropDupByAux]
  | cons e es ih =>
    intro seen
    simp only [dropDupByAux]
    by_cases he : key e ∈ seen
    · rw [if_pos he]; exact ih seen
    · rw [if_neg he]
      refine List.Pairwise.cons ?_ (ih (key e :: seen))
      intro b hb
      have := key_not_seen_of_mem_dropDupByAux hb
      simp only [List.mem_cons] at this
      exact fun hk => this (Or.inl hk.symm)

theorem dropDupByAux_eq_self {κ : Type} [DecidableEq κ] (key : Deal → κ) :
    ∀ (l : List Deal) (seen : List κ), (∀ d ∈ l, key d ∉ seen) →
      l.Pairwise (fun a b => key a ≠ key b) → dropDupByAux key seen l = l := by
  intro l
  induction l with
  | nil => intro seen _ _; simp [dropDupByAux]
  | cons e es ih =>
    intro seen hseen hpw
    simp only [dropDupByAux]
    rw [if_neg (hseen e (List.mem_cons_self e es))]
    rcases List.pairwise_cons.mp hpw with ⟨he, hes⟩
    congr 1
    refine ih (key e :: seen) ?_ hes
    intro d hd
    simp only [List.mem_cons]
    rintro (hk | hk)
    · exact he d hd hk.symm
    · exact hseen d (List.mem_cons_of_mem e hd) hk

theorem dropDuplicates_idem (l : List Deal) :
    dropDuplicates (dropDuplicates l) = dropDuplicates l := by
  unfold dropDuplicates
  exact dropDupByAux_eq_self dedupKey _ [] (by simp)
    (dropDupByAux_keys_pairwise dedupKey l [])

theorem mem_dropDuplicates_buyer {l : List Deal} {b : String} :
    (∃ d, d ∈ dropDuplicates l ∧ d.buyer = some b) ↔
      (∃ d, d ∈ l ∧ d.buyer = some b) := by
  constructor
  · rintro ⟨d, hd, hb⟩
    exact ⟨d, mem_of_mem_dropDupByAux hd, hb⟩
  · rintro ⟨d, hd, hb⟩
    rcases dropDupByAux_key_rep dedupKey l [] d hd (by simp) with ⟨d', hd', hk⟩
    have hb' : d'.buyer = d.buyer := congrArg (fun p => p.1) hk
    exact ⟨d', hd', hb' ▸ hb⟩

/-! ## Helper lemmas about `uniqAux` and `foldr max` -/

theorem mem_uniqAux {α : Type} [DecidableEq α] :
    ∀ {l seen : List α} {x : α}, x ∈ uniqAux seen l ↔ x ∈ l ∧ x ∉ seen := by
  intro l
  induction l with
  | nil => intro seen x; simp [uniqAux]
  | cons a as ih =>
    intro seen x
    simp only [uniqAux]
    by_cases ha : a ∈ seen
    · rw [if_pos ha, ih]
      simp only [List.mem_cons]
      constructor
      · rintro ⟨h1, h2⟩; exact ⟨Or.inr h1, h2⟩
      · rintro ⟨h1 | h1, h2⟩
        · exact absurd (h1 ▸ ha) h2
        · exact ⟨h1, h2⟩
    · rw [if_neg ha]
      simp only [List.mem_cons, ih, List.mem_cons]
      constructor
      · rintro (rfl | ⟨h1, h2⟩)
        · exact ⟨Or.inl rfl, ha⟩
        · exact ⟨Or.inr h1, fun hs => h2 (Or.inr hs)⟩
      · rintro ⟨rfl | h1, h2⟩
        · exact Or.inl rfl
        · by_cases hx : x = a
          · exact Or.inl hx
          · exact Or.inr ⟨h1, fun hs => hs.elim hx h2⟩

theorem le_foldr_max {l : List ℕ} {x : ℕ} (h : x ∈ l) : x ≤ l.foldr max 0 := by
  induction l with
  | nil => simp at h
  | cons a as ih =>
    simp only [List.foldr]
    rcases List.mem_cons.mp h with rfl | h'
    · exact le_max_left _ _
    · exact le_trans (ih h') (le_max_right _ _)

theorem foldr_max_le {l : List ℕ} {n : ℕ} (h : ∀ x ∈ l, x ≤ n) :
    l.foldr max 0 ≤ n := by
  induction l with
  | nil => simp
  | cons a as ih =>
    simp only [List.foldr, max_le_iff]
    exact ⟨h a (List.mem_cons_self a as), ih fun x hx => h x (List.mem_cons_of_mem a hx)⟩

theorem foldr_max_mul (k : ℕ) :
    ∀ (l : List ℕ), (l.map (fun x => k * x)).foldr max 0 = k * l.foldr max 0 := by
  intro l
  induction l with
  | nil => simp
  | cons a as ih =>
    simp only [List.map, List.foldr, ih]
    rcases le_total a (as.foldr max 0) with h | h
    · rw [max_eq_right h, max_eq_right (Nat.mul_le_mul_left k h)]
    · rw [max_eq_left h, max_eq_left (Nat.mul_le_mul_left k h)]

theorem length_flatMap_of_three {α β : Type} {f : α → List β}
    (hf : ∀ x, (f x).length = 3) :
    ∀ (l : List α), (l.flatMap f).length = 3 * l.length := by
  intro l
  induction l with
  | nil => simp
  | cons a as ih =>
    simp only [List.flatMap_cons, List.length_append, ih, hf a, List.length_cons]
    ring

/-! ## Bridging lemmas between the pipeline stages -/

theorem selectBuyer_some_eq_rowsFor (l : List Deal) (b : String) :
    selectBuyer l (some b) = rowsFor l b := by
  unfold selectBuyer rowsFor
  apply List.filter_congr
  intro d _
  cases hd : d.buyer with
  | none => simp [hd]
  | some x => simp [hd]

theorem selectBuyer_none (l : List Deal) : selectBuyer l none = [] := by
  unfold selectBuyer
  induction l with
  | nil => rfl
  | cons d ds ih =>
    rw [List.filter_cons]
    cases hd : d.buyer <;> simp [hd]

theorem mem_sortByDate {l : List Deal} {d : Deal} :
    d ∈ sortByDate l ↔ d ∈ l := by
  unfold sortByDate
  exact List.mem_insertionSort dealLE

theorem length_sortByDate (l : List Deal) :
    (sortByDate l).length = l.length := by
  unfold sortByDate
  exact List.length_insertionSort dealLE l

theorem mem_presentDates_rowsFor {l : List Deal} {b : String} {x : Int} :
    x ∈ presentDates (rowsFor l b) ↔
      ∃ d, d ∈ l ∧ d.buyer = some b ∧ d.date = some x := by
  unfold presentDates rowsFor
  simp only [List.mem_filterMap, List.mem_filter, decide_eq_true_eq]
  constructor
  · rintro ⟨d, ⟨hd, hb⟩, hx⟩; exact ⟨d, hd, hb, hx⟩
  · rintro ⟨d, hd, hb, hx⟩; exact ⟨d, ⟨hd, hb⟩, hx⟩

theorem mem_presentValues_rowsFor {l : List Deal} {b : String} {v : ℚ} :
    v ∈ presentValues (rowsFor l b) ↔
      ∃ d, d ∈ l ∧ d.buyer = some b ∧ d.value = some v := by
  unfold presentValues rowsFor
  simp only [List.mem_filterMap, List.mem_filter, decide_eq_true_eq]
  constructor
  · rintro ⟨d, ⟨hd, hb⟩, hx⟩; exact ⟨d, hd, hb, hx⟩
  · rintro ⟨d, hd, hb, hx⟩; exact ⟨d, ⟨hd, hb⟩, hx⟩

theorem dedupKey_buyer_date_value {d d' : Deal} (h : dedupKey d' = dedupKey d) :
    d'.buyer = d.buyer ∧ d'.date = d.date ∧ d'.value = d.value := by
  unfold dedupKey at h
  exact ⟨congrArg (fun p => p.1) h, congrArg (fun p => p.2.2.1) h,
    congrArg (fun p => p.2.2.2) h⟩

theorem mem_presentDates_rowsFor_dropDuplicates {l : List Deal} {b : String} {x : Int} :
    x ∈ presentDates (rowsFor (dropDuplicates l) b) ↔
      x ∈ presentDates (rowsFor l b) := by
  rw [mem_presentDates_rowsFor, mem_presentDates_rowsFor]
  constructor
  · rintro ⟨d, hd, hb, hx⟩
    exact ⟨d, mem_of_mem_dropDupByAux hd, hb, hx⟩
  · rintro ⟨d, hd, hb, hx⟩
    rcases dropDupByAux_key_rep dedupKey l [] d hd (by simp) with ⟨d', hd', hk⟩
    rcases dedupKey_buyer_date_value hk with ⟨h1, h2, _⟩
    exact ⟨d', hd', h1 ▸ hb, h2 ▸ hx⟩

theorem mem_presentValues_rowsFor_dropDuplicates {l : List Deal} {b : String} {v : ℚ} :
    v ∈ presentValues (rowsFor (dropDuplicates l) b) ↔
      v ∈ presentValues (rowsFor l b) := by
  rw [mem_presentValues_rowsFor, mem_presentValues_rowsFor]
  constructor
  · rintro ⟨d, hd, hb, hx⟩
    exact ⟨d, mem_of_mem_dropDupByAux hd, hb, hx⟩
  · rintro ⟨d, hd, hb, hx⟩
    rcases dropDupByAux_key_rep dedupKey l [] d hd (by simp) with ⟨d', hd', hk⟩
    rcases dedupKey_buyer_date_value hk with ⟨h1, _, h3⟩
    exact ⟨d', hd', h1 ▸ hb, h3 ▸ hx⟩

theorem length_dealInfo (data : List Deal) (b : Option String) :
    (dealInfo data b).length = 3 * (selectBuyer (dropDuplicates data) b).length := by
  unfold dealInfo sortedBuyerRows
  rw [length_flatMap_of_three (fun d => by simp [tripleOf]), length_sortByDate]

theorem mem_presentBuyers {data : List Deal} {b : String} :
    b ∈ presentBuyers data ↔ ∃ d, d ∈ data ∧ d.buyer = some b := by
  unfold presentBuyers
  simp only [List.mem_dedup, List.mem_filterMap]

theorem matchesFilter_iff {c : Criteria} {d : Deal} :
    matchesFilter c d = true ↔
      ∃ x v, d.date = some x ∧ d.value = some v ∧
        c.fromDate ≤ x ∧ x ≤ c.toDate ∧ c.minValue ≤ v := by
  unfold matchesFilter fromMask toMask valueMask
  cases hd : d.date with
  | none => simp [hd]
  | some x =>
    cases hv : d.value with
    | none => simp [hd, hv]
    | some v =>
      simp only [hd, hv, Bool.and_eq_true, decide_eq_true_eq, Option.some.injEq]
      constructor
      · rintro ⟨⟨h1, h2⟩, h3⟩
        exact ⟨x, v, rfl, rfl, h1, h2, h3⟩
      · rintro ⟨x', v', hx, hv', h1, h2, h3⟩
        subst hx; subst hv'
        exact ⟨⟨h1, h2⟩, h3⟩

theorem mem_filterRecords {c : Criteria} {l : List Deal} {d : Deal} :
    d ∈ filterRecords c l ↔ d ∈ l ∧ matchesFilter c d = true := by
  unfold filterRecords
  exact List.mem_filter

theorem date_value_present_of_mem_filterRecords {c : Criteria} {l : List Deal}
    {d : Deal} (h : d ∈ filterRecords c l) :
    d.date ≠ none ∧ d.value ≠ none := by
  rcases matchesFilter_iff.mp (mem_filterRecords.mp h).2 with ⟨x, v, hx, hv, _⟩
  rw [hx, hv]
  simp

/-! ## The width of the `Buyer Deal Details` table -/

theorem dealDict_map_length (data : List Deal) :
    (dealDict data).map (fun p => p.2.length) =
      (uniqueBuyers data).map (fun b => (dealInfo data b).length) := by
  unfold dealDict
  rw [List.map_map]
  rfl

theorem maxRowLen_dealDict (data : List Deal) :
    maxRowLen (dealDict data) = 3 * maxDealCount data := by
  unfold maxRowLen
  rw [dealDict_map_length]
  apply le_antisymm
  · apply foldr_max_le
    intro x hx
    rcases List.mem_map.mp hx with ⟨b, hb, rfl⟩
    rw [length_dealInfo]
    cases b with
    | none => rw [selectBuyer_none]; simp
    | some s =>
      have hs : s ∈ presentBuyers data := by
        have h1 := (mem_uniqAux.mp hb).1
        rcases List.mem_map.mp h1 with ⟨d, hd, hdb⟩
        exact mem_presentBuyers.mpr (mem_dropDuplicates_buyer.mp ⟨d, hd, hdb⟩)
      apply Nat.mul_le_mul_left
      exact le_foldr_max (List.mem_map_of_mem (buyerDealCount data) hs)
  · unfold maxDealCount
    rw [← foldr_max_mul]
    apply foldr_max_le
    intro z hz
    rw [List.map_map] at hz
    rcases List.mem_map.mp hz with ⟨s, hs, rfl⟩
    have hmem : (some s : Option String) ∈ uniqueBuyers data := by
      rcases mem_presentBuyers.mp hs with ⟨d, hd, hdb⟩
      rcases mem_dropDuplicates_buyer.mpr ⟨d, hd, hdb⟩ with ⟨d', hd', hdb'⟩
      refine mem_uniqAux.mpr ⟨?_, by simp⟩
      exact List.mem_map.mpr ⟨d', hd', hdb'⟩
    have hle := le_foldr_max
      (List.mem_map_of_mem (fun b => (dealInfo data b).length) hmem)
    show 3 * (selectBuyer (dropDuplicates data) (some s)).length ≤ _
    rw [← length_dealInfo]
    exact hle

theorem mem_detailsTable_eq {data : List Deal} {b : String} {row : List (Option Cell)}
    (h : (some b, row) ∈ detailsTable data) :
    row = padTo (3 * maxDealCount data) (dealInfo data (some b)) := by
  unfold detailsTable at h
  rcases List.mem_map.mp h with ⟨p, hp, heq⟩
  unfold dealDict at hp
  rcases List.mem_map.mp hp with ⟨b', _, rfl⟩
  have hb : b' = some b := congrArg (fun q => q.1) heq
  have hrow : row = padTo (maxRowLen (dealDict data)) (dealInfo data b') :=
    (congrArg (fun q => q.2) heq).symm
  rw [hrow, hb, maxRowLen_dealDict]

/-! ## Claim theorems -/

/-- Claim C4: for every expanded record and every criteria, the record is in
the filtered set iff it is in the input, its date is not missing and lies in
the closed interval `[from_date, to_date]`, and its deal value is not
missing and is at least the minimum.  A record dated exactly `from_date` or
`to_date` satisfies the bounds; one day outside either bound does not. -/
theorem C4_filter_inclusion (c : Criteria) (l : List Deal) (d : Deal) :
    d ∈ filterRecords c l ↔
      d ∈ l ∧ ∃ x v, d.date = some x ∧ d.value = some v ∧
        c.fromDate ≤ x ∧ x ≤ c.toDate ∧ c.minValue ≤ v := by
  rw [mem_filterRecords, matchesFilter_iff]

/-- Claim C10: the Filter Engine is idempotent — filtering its own output
with the same criteria returns it unchanged, contents and order — and
order-preserving: the filtered records form a sublist of the input, which
the pure function leaves intact. -/
theorem C10_filter_idempotent_order_preserving (c : Criteria) (l : List Deal) :
    filterRecords c (filterRecords c l) = filterRecords c l ∧
      List.Sublist (filterRecords c l) l := by
  constructor
  · unfold filterRecords
    exact List.filter_eq_self.mpr fun a ha => (List.mem_filter.mp ha).2
  · exact List.filter_sublist l

/-- Claim C9: the triple sequence of a `Buyer Deal Details` row is the
flattening of the buyer's rows sorted by date, and those rows are pairwise
date-ascending: for any two triples in emission order, the later one's date
is not earlier than the preceding one's. -/
theorem C9_triples_date_ascending (data : List Deal) (b : Option String) :
    dealInfo data b = (sortedBuyerRows data b).flatMap tripleOf ∧
      (sortedBuyerRows data b).Pairwise
        (fun r s => ∀ x y, r.date = some x → s.date = some y → x ≤ y) := by
  refine ⟨rfl, ?_⟩
  have hs : (sortedBuyerRows data b).Pairwise dealLE := by
    unfold sortedBuyerRows sortByDate
    exact List.sorted_insertionSort dealLE _
  refine hs.imp ?_
  intro r s h x y hx hy
  simp only [dealLE, sortKey, hx, hy] at h
  exact_mod_cast h

/-- Claim C8 (code bug): evaluation of the styling pass's colour index at
the failing input.  For the first deal-triple group (slot index `j = 0`,
loop variable `i = 1`) the code computes palette index
`(i - 1 // 3) % 4 = 1` and fills with the second palette colour, while the
claimed (and spec-intended) behaviour keys the palette by the triple index
and picks index `0 % 4 = 0`, the first colour. -/
theorem C8_color_index_eval :
    codeColorIndex (groupLoopVar 0) = 1 ∧
      (0 : ℕ) % lightColors.length = 0 ∧
      appliedGroupColor 0 = some "#e6f7ff" ∧
      intendedGroupColor 0 = some "#f2f2f2" ∧
      appliedGroupColor 0 ≠ intendedGroupColor 0 := by
  refine ⟨rfl, rfl, rfl, rfl, ?_⟩
  intro h
  simp [appliedGroupColor, intendedGroupColor, codeColorIndex, groupLoopVar,
    lightColors] at h

/-- A source row whose buyer field is non-empty text but splits into zero
tokens (a lone comma between spaces). -/
def zeroTokenRow : RawDeal :=
  ⟨"TargetCo", some 5, some 10, "Buyout", some " , "⟩

/-- Claim C2 counterexample: a source row whose buyer field splits into
zero tokens is NOT dropped by `load_data` — pandas `explode` turns the
empty token list into one expanded row whose buyer entry is missing, so one
expanded row derived from the source row is present in the returned
collection. -/
theorem C2_counterexample :
    buyerTokens zeroTokenRow = [] ∧
      (loadData [zeroTokenRow]).length = 1 ∧
      (loadData [zeroTokenRow]).map (fun d => d.buyer) = [none] := by
  refine ⟨by decide, by decide, by decide⟩

/-- Claim C2 (amended): for every source row whose raw buyer string splits
into zero tokens, `load_data` keeps the row in the expanded view as exactly
one row whose derived buyer field is the missing marker (and all other
fields copied); the row is not dropped. -/
theorem C2_zero_token_row_kept (r : RawDeal) (h : buyerTokens r = []) :
    loadData [r] =
      [⟨r.target, r.date, r.value, r.dealType, rawBuyersStr r, none,
        r.date.map fmtDate⟩] := by
  unfold loadData
  simp only [List.flatMap_cons, List.flatMap_nil, List.append_nil]
  unfold expandRow
  rw [h]

/-- Witness for the amended claim C2 at the concrete zero-token row. -/
theorem C2_witness :
    buyerTokens zeroTokenRow = [] ∧
      loadData [zeroTokenRow] =
        [⟨"TargetCo", some 5, some 10, "Buyout", " , ", none, some (fmtDate 5)⟩] := by
  refine ⟨by decide, ?_⟩
  rw [C2_zero_token_row_kept zeroTokenRow (by decide)]
  rfl

/-- A source row whose buyer field lists the same buyer twice. -/
def dupTokenRow : RawDeal :=
  ⟨"TargetCo2", some 7, some 20, "VC", some "Acme, Acme"⟩

/-- Claim C6 counterexample: a deal whose raw buyer string yields one
distinct non-empty trimmed token ("Acme", listed twice) expands to two
rows, not one — `load_data` does not collapse duplicate tokens, so the
expanded row count follows the token multiset, not the distinct count. -/
theorem C6_counterexample :
    (buyerTokens dupTokenRow).dedup.length = 1 ∧
      (loadData [dupTokenRow]).length = 2 := by
  refine ⟨by decide, by decide⟩

/-- Claim C6 (amended): for every original deal whose raw buyer string
yields `k ≥ 1` non-empty trimmed tokens counted with multiplicity
(duplicate tokens are not collapsed), `load_data` produces exactly `k`
expanded rows for that deal, identical in every field except the derived
single-buyer field, whose values are the trimmed tokens in order. -/
theorem C6_expansion_invariant (r : RawDeal) (h : buyerTokens r ≠ []) :
    (expandRow r).length = (buyerTokens r).length ∧
      (expandRow r).map
          (fun d => (d.target, d.date, d.value, d.dealType, d.rawBuyers, d.fdate)) =
        List.replicate (buyerTokens r).length
          (r.target, r.date, r.value, r.dealType, rawBuyersStr r,
            r.date.map fmtDate) ∧
      (expandRow r).map (fun d => d.buyer) =
        (buyerTokens r).map (fun t => some (pyStrip t)) := by
  unfold expandRow
  cases ht : buyerTokens r with
  | nil => exact absurd ht h
  | cons t ts =>
    refine ⟨by simp, ?_, by simp⟩
    rw [List.map_map]
    rw [List.eq_replicate_iff]
    constructor
    · simp
    · intro x hx
      rcases List.mem_map.mp hx with ⟨tok, _, rfl⟩
      rfl

/-- Witness for the amended claim C6 at the concrete duplicate-token row. -/
theorem C6_witness :
    buyerTokens dupTokenRow ≠ [] ∧
      (expandRow dupTokenRow).length = (buyerTokens dupTokenRow).length := by
  exact ⟨by decide, (C6_expansion_invariant dupTokenRow (by decide)).1⟩

/-- A concrete expanded row used in the duplicate-row counterexamples. -/
def dupDeal : Deal :=
  ⟨"TargetCo", some 3, some 5, "Buyout", "A", some "A", some (fmtDate 3)⟩

/-- Criteria satisfied by `dupDeal`. -/
def dupCriteria : Criteria := ⟨0, 10, 0⟩

/-- A filtered input containing two exact-duplicate expanded rows. -/
def dupFiltered : List Deal := filterRecords dupCriteria [dupDeal, dupDeal]

/-- Claim C1 counterexample: on a filtered input with two exact-duplicate
rows for buyer "A", the `Buyer Summary` deal count is 2, not the count 1
computed from the input with the duplicates removed — the summary
aggregation of lines 49–55 runs before the deduplication of line 58, so
only the details table collapses the duplicates. -/
theorem C1_counterexample :
    dupFiltered = [dupDeal, dupDeal] ∧
      (summaryRow dupFiltered "A").numDeals = 2 ∧
      (summaryRow (dropDuplicates dupFiltered) "A").numDeals = 1 := by
  refine ⟨by decide, by decide, by decide⟩

/-- Claim C1 (amended): exact-duplicate expanded rows collapse to a single
entry in the buyer's `Buyer Deal Details` triple sequence, which equals the
one computed from the input with duplicates removed; the `Buyer Summary`
aggregates of dates and values also equal those of the deduplicated input,
but the summary deal count is computed before deduplication and counts
every duplicate row separately. -/
theorem C1_details_dedup_summary_count_raw (data : List Deal) (b : String) :
    dealInfo data (some b) = dealInfo (dropDuplicates data) (some b) ∧
      (summaryRow (dropDuplicates data) b).firstDealDate =
        (summaryRow data b).firstDealDate ∧
      (summaryRow (dropDuplicates data) b).lastDealDate =
        (summaryRow data b).lastDealDate ∧
      (summaryRow (dropDuplicates data) b).minDealValue =
        (summaryRow data b).minDealValue ∧
      (summaryRow (dropDuplicates data) b).maxDealValue =
        (summaryRow data b).maxDealValue ∧
      (summaryRow data b).numDeals = (rowsFor data b).length := by
  refine ⟨?_, ?_, ?_, ?_, ?_, rfl⟩
  · unfold dealInfo sortedBuyerRows
    rw [dropDuplicates_idem]
  · show (pdMin (presentDates (rowsFor (dropDuplicates data) b))).map fmtDate = _
    rw [pdMin_congr fun x => mem_presentDates_rowsFor_dropDuplicates]
    rfl
  · show (pdMax (presentDates (rowsFor (dropDuplicates data) b))).map fmtDate = _
    rw [pdMax_congr fun x => mem_presentDates_rowsFor_dropDuplicates]
    rfl
  · show (pdMin (presentValues (rowsFor (dropDuplicates data) b))).map round2 = _
    rw [pdMin_congr fun v => mem_presentValues_rowsFor_dropDuplicates]
    rfl
  · show (pdMax (presentValues (rowsFor (dropDuplicates data) b))).map round2 = _
    rw [pdMax_congr fun v => mem_presentValues_rowsFor_dropDuplicates]
    rfl

theorem mem_presentDates_sortByDate {l : List Deal} {x : Int} :
    x ∈ presentDates (sortByDate l) ↔ x ∈ presentDates l := by
  unfold presentDates sortByDate
  exact ((List.perm_insertionSort dealLE l).filterMap _).mem_iff

theorem mem_presentValues_sortByDate {l : List Deal} {v : ℚ} :
    v ∈ presentValues (sortByDate l) ↔ v ∈ presentValues l := by
  unfold presentValues sortByDate
  exact ((List.perm_insertionSort dealLE l).filterMap _).mem_iff

/-- Claim C3 counterexample: on a filtered set with two exact-duplicate
rows for buyer "A", the presentation layer's `Total Deals` (which
deduplicates, line 162) is 1 while the `Buyer Summary` deal count (which
does not) is 2, so the per-buyer view and the spreadsheet export do not
render the same statistics. -/
theorem C3_counterexample :
    presTotalDeals dupFiltered "A" = 1 ∧
      (summaryRow dupFiltered "A").numDeals = 2 ∧
      presTotalDeals dupFiltered "A" ≠ (summaryRow dupFiltered "A").numDeals := by
  refine ⟨by decide, by decide, by decide⟩

/-- Claim C3 (amended): for every filtered set and buyer whose rows in it
contain no exact duplicates (equal target, date and value), the per-buyer
statistics rendered by the presentation layer — total deals, first and most
recent investment dates, min and max deal values — equal the corresponding
`Buyer Summary` fields produced by `prepare_excel_summary` on the same
filtered set; with duplicate rows the two deal counts differ. -/
theorem C3_presentation_matches_summary (c : Criteria) (raw : List Deal)
    (b : String)
    (h : ((selectBuyer (filterRecords c raw) (some b)).map viewKey).Nodup) :
    presTotalDeals (filterRecords c raw) b =
        (summaryRow (filterRecords c raw) b).numDeals ∧
      presFirstDate (filterRecords c raw) b =
        (summaryRow (filterRecords c raw) b).firstDealDate ∧
      presLastDate (filterRecords c raw) b =
        (summaryRow (filterRecords c raw) b).lastDealDate ∧
      presMinValue (filterRecords c raw) b =
        (summaryRow (filterRecords c raw) b).minDealValue ∧
      presMaxValue (filterRecords c raw) b =
        (summaryRow (filterRecords c raw) b).maxDealValue := by
  have hdedup : viewDedup (selectBuyer (filterRecords c raw) (some b)) =
      selectBuyer (filterRecords c raw) (some b) := by
    apply dropDupByAux_eq_self viewKey _ [] (by simp)
    exact List.pairwise_map.mp h
  have hview : buyerView (filterRecords c raw) b =
      sortByDate (rowsFor (filterRecords c raw) b) := by
    unfold buyerView
    rw [hdedup, selectBuyer_some_eq_rowsFor]
  refine ⟨?_, ?_, ?_, ?_, ?_⟩
  · unfold presTotalDeals
    rw [hview, length_sortByDate]
    rfl
  · unfold presFirstDate
    rw [hview, pdMin_congr fun x => mem_presentDates_sortByDate]
    rfl
  · unfold presLastDate
    rw [hview, pdMax_congr fun x => mem_presentDates_sortByDate]
    rfl
  · unfold presMinValue
    rw [hview, pdMin_congr fun v => mem_presentValues_sortByDate]
    rfl
  · unfold presMaxValue
    rw [hview, pdMax_congr fun v => mem_presentValues_sortByDate]
    rfl

/-- Two distinct expanded rows for buyer "A", duplicate-free. -/
def cleanRowA : Deal :=
  ⟨"TargetOne", some 2, some 4, "Buyout", "A", some "A", some (fmtDate 2)⟩

/-- A second, different expanded row for buyer "A". -/
def cleanRowB : Deal :=
  ⟨"TargetTwo", some 6, some 9, "VC", "A", some "A", some (fmtDate 6)⟩

/-- Witness for the amended claim C3 on a duplicate-free two-row filtered
set. -/
theorem C3_witness :
    ((selectBuyer (filterRecords dupCriteria [cleanRowA, cleanRowB]) (some "A")).map
        viewKey).Nodup ∧
      presTotalDeals (filterRecords dupCriteria [cleanRowA, cleanRowB]) "A" =
        (summaryRow (filterRecords dupCriteria [cleanRowA, cleanRowB]) "A").numDeals := by
  exact ⟨by decide,
    (C3_presentation_matches_summary dupCriteria [cleanRowA, cleanRowB] "A" (by decide)).1⟩

/-- Claim C5: for every filtered set and every buyer appearing in it, the
`Buyer Summary` row for that buyer is the tuple (number of the buyer's
rows, earliest deal date rendered, latest deal date rendered, minimum deal
value rounded to 2 decimals, maximum deal value rounded to 2 decimals):
the dates and values in the tuple are members of the buyer's group and are
the extreme ones. -/
theorem C5_summary_row_correct (c : Criteria) (raw : List Deal) (b : String)
    (h : b ∈ presentBuyers (filterRecords c raw)) :
    ∃ dmin dmax vmin vmax,
      summaryRow (filterRecords c raw) b =
        ⟨b, (rowsFor (filterRecords c raw) b).length, some (fmtDate dmin),
          some (fmtDate dmax), some (round2 vmin), some (round2 vmax)⟩ ∧
      dmin ∈ presentDates (rowsFor (filterRecords c raw) b) ∧
      (∀ x ∈ presentDates (rowsFor (filterRecords c raw) b), dmin ≤ x) ∧
      dmax ∈ presentDates (rowsFor (filterRecords c raw) b) ∧
      (∀ x ∈ presentDates (rowsFor (filterRecords c raw) b), x ≤ dmax) ∧
      vmin ∈ presentValues (rowsFor (filterRecords c raw) b) ∧
      (∀ v ∈ presentValues (rowsFor (filterRecords c raw) b), vmin ≤ v) ∧
      vmax ∈ presentValues (rowsFor (filterRecords c raw) b) ∧
      (∀ v ∈ presentValues (rowsFor (filterRecords c raw) b), v ≤ vmax) := by
  rcases mem_presentBuyers.mp h with ⟨d, hd, hb⟩
  rcases date_value_present_of_mem_filterRecords hd with ⟨hdate, hval⟩
  rcases hx : d.date with _ | x
  · exact absurd hx hdate
  rcases hv : d.value with _ | v
  · exact absurd hv hval
  have hxmem : x ∈ presentDates (rowsFor (filterRecords c raw) b) :=
    mem_presentDates_rowsFor.mpr ⟨d, hd, hb, hx⟩
  have hvmem : v ∈ presentValues (rowsFor (filterRecords c raw) b) :=
    mem_presentValues_rowsFor.mpr ⟨d, hd, hb, hv⟩
  rcases hmin : pdMin (presentDates (rowsFor (filterRecords c raw) b)) with _ | dmin
  · rw [pdMin_eq_none_iff.mp hmin] at hxmem
    simp at hxmem
  rcases hmax : pdMax (presentDates (rowsFor (filterRecords c raw) b)) with _ | dmax
  · rw [pdMax_eq_none_iff.mp hmax] at hxmem
    simp at hxmem
  rcases hvmin : pdMin (presentValues (rowsFor (filterRecords c raw) b)) with _ | vmin
  · rw [pdMin_eq_none_iff.mp hvmin] at hvmem
    simp at hvmem
  rcases hvmax : pdMax (presentValues (rowsFor (filterRecords c raw) b)) with _ | vmax
  · rw [pdMax_eq_none_iff.mp hvmax] at hvmem
    simp at hvmem
  refine ⟨dmin, dmax, vmin, vmax, ?_, pdMin_mem hmin, pdMin_le hmin,
    pdMax_mem hmax, pdMax_ge hmax, pdMin_mem hvmin, pdMin_le hvmin,
    pdMax_mem hvmax, pdMax_ge hvmax⟩
  unfold summaryRow
  rw [hmin, hmax, hvmin, hvmax]
  rfl

/-- Three distinct expanded rows for buyer "B": deals valued 2.5, 7.0 and
3.25 on dates 1 < 2 < 3, the example of the specification. -/
def exampleRows : List Deal :=
  [⟨"T1", some 1, some (mkRat 5 2), "Buyout", "B", some "B", some (fmtDate 1)⟩,
   ⟨"T2", some 2, some 7, "Buyout", "B", some "B", some (fmtDate 2)⟩,
   ⟨"T3", some 3, some (mkRat 13 4), "Buyout", "B", some "B", some (fmtDate 3)⟩]

/-- Witness for claim C5 on the specification's example: buyer "B" with
deals valued [2.5, 7.0, 3.25] on dates 1 < 2 < 3 yields the summary row
(count 3, first date 1, last date 3, min 2.5, max 7.0). -/
theorem C5_witness :
    "B" ∈ presentBuyers (filterRecords dupCriteria exampleRows) ∧
      (∃ dmin dmax vmin vmax,
        summaryRow (filterRecords dupCriteria exampleRows) "B" =
          ⟨"B", (rowsFor (filterRecords dupCriteria exampleRows) "B").length,
            some (fmtDate dmin), some (fmtDate dmax), some (round2 vmin),
            some (round2 vmax)⟩ ∧
        dmin ∈ presentDates (rowsFor (filterRecords dupCriteria exampleRows) "B") ∧
        (∀ x ∈ presentDates (rowsFor (filterRecords dupCriteria exampleRows) "B"),
          dmin ≤ x) ∧
        dmax ∈ presentDates (rowsFor (filterRecords dupCriteria exampleRows) "B") ∧
        (∀ x ∈ presentDates (rowsFor (filterRecords dupCriteria exampleRows) "B"),
          x ≤ dmax) ∧
        vmin ∈ presentValues (rowsFor (filterRecords dupCriteria exampleRows) "B") ∧
        (∀ v ∈ presentValues (rowsFor (filterRecords dupCriteria exampleRows) "B"),
          vmin ≤ v) ∧
        vmax ∈ presentValues (rowsFor (filterRecords dupCriteria exampleRows) "B") ∧
        (∀ v ∈ presentValues (rowsFor (filterRecords dupCriteria exampleRows) "B"),
          v ≤ vmax)) ∧
      summaryRow (filterRecords dupCriteria exampleRows) "B" =
        ⟨"B", 3, some (fmtDate 1), some (fmtDate 3), some (round2 (mkRat 5 2)),
          some (round2 7)⟩ := by
  exact ⟨by decide, C5_summary_row_correct dupCriteria exampleRows "B" (by decide),
    by decide⟩

theorem mem_detailsTable_buyer {data : List Deal} {b : String}
    {row : List (Option Cell)} (h : (some b, row) ∈ detailsTable data) :
    b ∈ presentBuyers data := by
  unfold detailsTable at h
  rcases List.mem_map.mp h with ⟨p, hp, heq⟩
  unfold dealDict at hp
  rcases List.mem_map.mp hp with ⟨b', hb', rfl⟩
  have hb : b' = some b := congrArg (fun q => q.1) heq
  subst hb
  have h1 := (mem_uniqAux.mp hb').1
  rcases List.mem_map.mp h1 with ⟨d, hd, hdb⟩
  exact mem_presentBuyers.mpr (mem_dropDuplicates_buyer.mp ⟨d, hd, hdb⟩)

/-- Claim C7: for every non-empty filtered set, the `Buyer Deal Details`
table has `1 + 3*m` columns where `m` is the maximum per-buyer
(deduplicated) deal count over the buyers in the set, the generated header
row has the same width, and a buyer with `d` deals has its data row padded
to width `3*m` ending in `3*(m - d)` empty cells. -/
theorem C7_details_row_width (c : Criteria) (raw : List Deal)
    (h : filterRecords c raw ≠ []) :
    numDetailColumns (filterRecords c raw) =
        1 + 3 * maxDealCount (filterRecords c raw) ∧
      (detailHeaders (filterRecords c raw)).length =
        numDetailColumns (filterRecords c raw) ∧
      ∀ b row, (some b, row) ∈ detailsTable (filterRecords c raw) →
        row.length = 3 * maxDealCount (filterRecords c raw) ∧
        List.drop (3 * buyerDealCount (filterRecords c raw) b) row =
          List.replicate
            (3 * (maxDealCount (filterRecords c raw) -
              buyerDealCount (filterRecords c raw) b)) none := by
  refine ⟨?_, ?_, ?_⟩
  · unfold numDetailColumns
    rw [maxRowLen_dealDict]
  · unfold detailHeaders numDetailColumns
    have hf : ∀ i : ℕ, (["Date " ++ toString (i+1), "Deal " ++ toString (i+1),
        "Deal Value " ++ toString (i+1) ++ " (in Mn USD)"] : List String).length = 3 :=
      fun i => rfl
    have hh : ((List.range (maxRowLen (dealDict (filterRecords c raw)) / 3)).flatMap
        (fun i => ["Date " ++ toString (i+1), "Deal " ++ toString (i+1),
          "Deal Value " ++ toString (i+1) ++ " (in Mn USD)"])).length =
        3 * (List.range (maxRowLen (dealDict (filterRecords c raw)) / 3)).length :=
      length_flatMap_of_three hf _
    rw [List.length_cons, hh, List.length_range,
      maxRowLen_dealDict, Nat.mul_div_cancel_left _ (by norm_num : 0 < 3)]
    omega
  · intro b row hrow
    have hb : b ∈ presentBuyers (filterRecords c raw) :=
      mem_detailsTable_buyer hrow
    have hle : buyerDealCount (filterRecords c raw) b ≤
        maxDealCount (filterRecords c raw) :=
      le_foldr_max (List.mem_map_of_mem _ hb)
    have hlen : (dealInfo (filterRecords c raw) (some b)).length =
        3 * buyerDealCount (filterRecords c raw) b :=
      length_dealInfo _ _
    rw [mem_detailsTable_eq hrow]
    constructor
    · unfold padTo
      rw [List.length_append, List.length_replicate, hlen]
      omega
    · unfold padTo
      rw [← hlen, List.drop_left, hlen]
      congr 1
      omega

/-- Witness for claim C7 on a concrete two-deal filtered set: buyer "A" has
two deduplicated deals, so the details table is `1 + 3*2 = 7` columns
wide. -/
theorem C7_witness :
    filterRecords dupCriteria [cleanRowA, cleanRowB] ≠ [] ∧
      numDetailColumns (filterRecords dupCriteria [cleanRowA, cleanRowB]) =
        1 + 3 * maxDealCount (filterRecords dupCriteria [cleanRowA, cleanRowB]) ∧
      numDetailColumns (filterRecords dupCriteria [cleanRowA, cleanRowB]) = 7 := by
  refine ⟨by decide,
    (C7_details_row_width dupCriteria [cleanRowA, cleanRowB] (by decide)).1,
    by decide⟩

end PEVC
